import Mathlib

/-!
Shallow embedding of `src/sync_whoop_to_gsheets.py` (the WHOOP-to-Google-Sheets sync tool).

Modelling conventions:
* UTC timestamps are modelled as integer seconds since the Unix epoch
  (the WHOOP API supplies whole-second ISO-8601 instants; `datetime.fromisoformat`
  parsing of the instant string itself is outside the claims under scrutiny).
* Calendar dates are integer days since the Unix epoch (1970-01-01, a Thursday).
* Python `dict`s are association lists in insertion order; `dget`/`dictSet` model
  `dict.get` and `d[k] = v`.
* Fallible code paths (uncaught Python exceptions) are modelled with `Option`:
  `none` means the corresponding Python call raises.
-/

/-- Association-list lookup, modelling Python `dict.get(k)` (returns `None` when absent). -/
def dget {α β : Type} [DecidableEq α] : List (α × β) → α → Option β
  | [], _ => none
  | (k, x) :: rest, a => if k = a then some x else dget rest a

/-- Association-list assignment, modelling Python `d[k] = v` (overwrite in place, else append). -/
def dictSet {α β : Type} [DecidableEq α] : List (α × β) → α → β → List (α × β)
  | [], k, v => [(k, v)]
  | (k2, x) :: rest, k, v =>
    if k2 = k then (k, v) :: rest else (k2, x) :: dictSet rest k v

/-- Models `if date not in d: d[date] = 0` followed by `d[date] += v` (lines 118-120). -/
def bump : List (Int × Int) → Int → Int → List (Int × Int)
  | [], d, v => [(d, v)]
  | (k, x) :: rest, d, v =>
    if k = d then (k, x + v) :: rest else (k, x) :: bump rest d v

/-- Python `str.strip()` on a character list: drop ASCII whitespace from both ends
(exotic Unicode whitespace is not modelled). -/
def pyStripList (cs : List Char) : List Char :=
  ((cs.dropWhile Char.isWhitespace).reverse.dropWhile Char.isWhitespace).reverse

/-- Python `str.strip()`. -/
def pyStrip (s : String) : String := ⟨pyStripList s.data⟩

/-- Python `str.lower()` (ASCII case mapping). -/
def pyLower (s : String) : String := ⟨s.data.map Char.toLower⟩

/-- Python `str.split(sep)` for a one-character separator, on a character list:
every occurrence of the separator starts a new field, so `"a::b"` gives
`["a", "", "b"]` and the empty string gives `[""]`. -/
def pySplitGo (sep : Char) : List Char → List Char → List (List Char)
  | [], cur => [cur.reverse]
  | c :: cs, cur =>
    if c = sep then cur.reverse :: pySplitGo sep cs []
    else pySplitGo sep cs (c :: cur)

/-- Python `str.split(sep)` for a one-character separator. -/
def pySplit (s : String) (sep : Char) : List String :=
  (pySplitGo sep s.data []).map (fun cs => ⟨cs⟩)

/-- Python `int(str)` on a decimal literal: optional surrounding whitespace, optional
sign, at least one digit (digit-group underscores are not modelled). `none` models
the `ValueError` raised on anything else. -/
def pyIntOf (s : String) : Option Int :=
  match pyStripList s.data with
  | [] => none
  | c :: rest =>
    let sign : Int := if c = '-' then -1 else 1
    let digits := if c = '-' || c = '+' then rest else c :: rest
    if !digits.isEmpty && digits.all Char.isDigit then
      some (sign * digits.foldl (fun a ch => a * 10 + ((ch.toNat : Int) - 48)) 0)
    else none

/-- Helper: the part of the offset string after its first character parses as exactly
two `:`-separated Python integers (mirrors `map(int, timezone_offset[1:].split(':'))`
with the 2-tuple unpacking). -/
def offsetTailOk (t : String) : Bool :=
  match pySplit t ':' with
  | [a, b] => (pyIntOf a).isSome && (pyIntOf b).isSome
  | _ => false

/-- Offset parsing inside `parse_whoop_local_datetime` (lines 49-51):
`sign = 1 if timezone_offset[0] == '+' else -1;
hours, minutes = map(int, timezone_offset[1:].split(':'));
offset = timedelta(hours=hours, minutes=minutes) * sign`.
Returns the signed offset in total minutes; `none` models the raised exception
(`IndexError` on the empty string, `ValueError` on a malformed tail). -/
def parseOffset (s : String) : Option Int :=
  if s.isEmpty then none
  else
    let sign : Int := if s.front = '+' then 1 else -1
    match pySplit (s.drop 1) ':' with
    | [a, b] =>
      match pyIntOf a, pyIntOf b with
      | some h, some m => some (sign * (h * 60 + m))
      | _, _ => none
    | _ => none

/-- `parse_whoop_local_datetime` (lines 47-53): apply the parsed offset to the UTC
instant, producing the local wall-clock time as seconds since the epoch in the
local frame (`dt_utc.astimezone(timezone(offset))`). -/
def parseWhoopLocal (utcSec : Int) (tzOffset : String) : Option Int :=
  (parseOffset tzOffset).map (fun off => utcSec + 60 * off)

/-- The calendar date (`datetime.date()`) of a local wall-clock instant, as days
since the epoch (floor division, matching proleptic-Gregorian day boundaries). -/
def localDate (localSec : Int) : Int := Int.fdiv localSec 86400

/-- One raw WHOOP workout record as consumed by `get_running_activities_with_token`:
`w.get('id')`, `w.get('sport_id')`, `w['start']`, `w['end']`,
`w.get('timezone_offset', '+00:00')`. Absent JSON fields are `none`. -/
structure Workout where
  id : Option String
  sport_id : Option Int
  startSec : Int
  endSec : Int
  timezone_offset : Option String
deriving DecidableEq, Repr

/-- `RUNNING_SPORT_IDS = {0}` (line 98). -/
def RUNNING_SPORT_IDS : List Int := [0]

/-- `w.get('sport_id') not in RUNNING_SPORT_IDS` negated: a missing sport id is never
in the set. -/
def isRunning : Option Int → Bool
  | some s => RUNNING_SPORT_IDS.contains s
  | none => false

/-- The mutable state of the aggregation loop (lines 93-124): `seen_workout_ids`
and `running_per_day`. -/
structure AggState where
  seen : List String
  agg : List (Int × Int)
deriving DecidableEq, Repr

/-- The identifier a workout contributes to `seen_workout_ids`, or `none` when the id is
missing or falsy (`if not workout_id`, line 101: `None` or the empty string). -/
def keyOf (w : Workout) : Option String :=
  match w.id with
  | none => none
  | some i => if i = "" then none else some i

/-- One iteration of the `for w in all_workouts` loop (lines 99-124): skip falsy ids,
skip already-seen ids, skip non-running sports; otherwise localize start/end,
compute truncated minutes, add into the per-day bucket, and record the id.
`none` models the exception raised by a malformed timezone offset. -/
def processWorkout (st : AggState) (w : Workout) : Option AggState :=
  match w.id with
  | none => some st
  | some wid =>
    if wid = "" then some st
    else if wid ∈ st.seen then some st
    else if isRunning w.sport_id = false then some st
    else
      let tz := w.timezone_offset.getD "+00:00"
      match parseWhoopLocal w.startSec tz, parseWhoopLocal w.endSec tz with
      | some sLoc, some eLoc =>
        some { seen := wid :: st.seen,
               agg := bump st.agg (localDate sLoc) (Int.tdiv (eLoc - sLoc) 60) }
      | _, _ => none

/-- The aggregation loop over a list of fetched workouts, from a given state. -/
def aggFrom (st : AggState) : List Workout → Option AggState
  | [] => some st
  | w :: ws =>
    match processWorkout st w with
    | none => none
    | some st2 => aggFrom st2 ws

/-- The aggregation phase of `get_running_activities_with_token` (lines 93-127):
fold the per-workout step from the empty state and return `running_per_day`. -/
def aggregateWorkouts (ws : List Workout) : Option (List (Int × Int)) :=
  (aggFrom { seen := [], agg := [] } ws).map AggState.agg

/-- Python truthiness of the `next_token` field (`if not next_token`, line 79):
absent or empty-string tokens are falsy. -/
def tokenTruthy : Option String → Bool
  | none => false
  | some s => !(s == "")

/-- The pagination `while True` loop of `get_running_activities_with_token`
(lines 63-91), driven by a source mapping the 1-based request number to the
response `(records, next_token)`. `pc` is `page_count` after its increment for the
current request. The loop extends `all_workouts`, stops when the token is falsy,
and otherwise stops when `page_count > 100` — checked only after the fetch. -/
def paginateFrom (src : Nat → List Workout × Option String) (pc : Nat)
    (acc : List Workout) : List Workout × Nat :=
  let resp := src pc
  let acc2 := acc ++ resp.1
  if tokenTruthy resp.2 = false then (acc2, pc)
  else if 100 < pc then (acc2, pc)
  else paginateFrom src (pc + 1) acc2
termination_by 101 - pc
decreasing_by omega

/-- Entry into the pagination loop: `page_count` starts at 0 and is incremented to 1
before the first request. Returns (`all_workouts`, final `page_count`). -/
def paginate (src : Nat → List Workout × Option String) : List Workout × Nat :=
  paginateFrom src 1 []

/-- `get_running_activities_with_token` end to end: paginate, then aggregate. -/
def getRunningActivities (src : Nat → List Workout × Option String) :
    Option (List (Int × Int)) :=
  aggregateWorkouts (paginate src).1

/-- The recognized weekday names of the `day_columns` comprehension (line 147). -/
def WEEKDAYS_LOWER : List String :=
  ["monday", "tuesday", "wednesday", "thursday", "friday", "saturday", "sunday"]

/-- Full weekday names as produced by `strftime('%A')` (C locale). -/
def DAY_NAMES : List String :=
  ["Monday", "Tuesday", "Wednesday", "Thursday", "Friday", "Saturday", "Sunday"]

/-- Python `date.weekday()`: Monday = 0 … Sunday = 6. Epoch day 0 (1970-01-01) was a
Thursday (weekday 3). -/
def pyWeekday (d : Int) : Nat := ((d + 3).emod 7).toNat

/-- `get_day_name` (lines 158-163) on a date value: `d.strftime('%A')`. -/
def dayName (d : Int) : String := DAY_NAMES.getD (pyWeekday d) ""

/-- `get_monday` (lines 152-157) on a date value: `d - timedelta(days=d.weekday())`. -/
def getMonday (d : Int) : Int := d - (pyWeekday d : Int)

/-- The `day_columns` dict comprehension (line 147), processed left to right with
index `i`: keys are the *original-case* trimmed header texts, recognition is
case-insensitive, later duplicates overwrite earlier ones. -/
def dayColumnsGo (m : List (String × Nat)) (i : Nat) : List String → List (String × Nat)
  | [] => m
  | h :: hs =>
    dayColumnsGo
      (if pyLower (pyStrip h) ∈ WEEKDAYS_LOWER then dictSet m (pyStrip h) i else m)
      (i + 1) hs

/-- `day_columns = {day.strip(): idx for idx, day in enumerate(headers) if
day.strip().lower() in [...]}` (line 147). -/
def dayColumns (headers : List String) : List (String × Nat) :=
  dayColumnsGo [] 0 headers

/-- Decimal value of a digit string. -/
def digitsToNat (s : String) : Nat :=
  s.data.foldl (fun a c => a * 10 + (c.toNat - 48)) 0

/-- Nonempty all-digit string. -/
def allDigits (s : String) : Bool := !s.data.isEmpty && s.data.all Char.isDigit

/-- One- or two-digit numeric field, as matched by `strptime`'s `%m`/`%d` directives. -/
def digits1to2 (s : String) : Bool := (s.length == 1 || s.length == 2) && allDigits s

/-- Gregorian leap year. -/
def isLeap (y : Int) : Bool :=
  (y.emod 4 == 0) && (y.emod 100 != 0 || y.emod 400 == 0)

/-- Length of a month, used by `datetime`'s date validation. -/
def daysInMonth (y m : Int) : Int :=
  if m == 2 then (if isLeap y then 29 else 28)
  else if m == 4 || m == 6 || m == 9 || m == 11 then 30
  else 31

/-- Days since 1970-01-01 of a proleptic-Gregorian calendar date (civil-days
conversion, floor divisions). -/
def toEpochDay (y m d : Int) : Int :=
  let yAdj := if m ≤ 2 then y - 1 else y
  let era := Int.fdiv yAdj 400
  let yoe := yAdj - era * 400
  let mp := (m + 9).emod 12
  let doy := Int.fdiv (153 * mp + 2) 5 + (d - 1)
  let doe := yoe * 365 + Int.fdiv yoe 4 - Int.fdiv yoe 100 + doy
  era * 146097 + doe - 719468

/-- `datetime`'s bounds check on constructed dates (`MINYEAR = 1`, `MAXYEAR = 9999`). -/
def validYMD (y m d : Int) : Bool :=
  decide (1 ≤ y) && decide (y ≤ 9999) && decide (1 ≤ m) && decide (m ≤ 12) &&
  decide (1 ≤ d) && decide (d ≤ daysInMonth y m)

/-- `datetime.strptime(cell, '%Y-%m-%d').date()` (line 171): exactly four year digits,
one or two month/day digits, full-string match, calendar validation. `none` models
the raised `ValueError`. -/
def parseYMDCell (s : String) : Option Int :=
  match pySplit s '-' with
  | [ys, ms, ds] =>
    if (ys.length == 4) && allDigits ys && digits1to2 ms && digits1to2 ds then
      let y : Int := (digitsToNat ys : Int)
      let m : Int := (digitsToNat ms : Int)
      let d : Int := (digitsToNat ds : Int)
      if validYMD y m d then some (toEpochDay y m d) else none
    else none
  | _ => none

/-- `datetime.strptime(cell, '%d/%m/%y').date()` (line 173): `%y` is exactly two
digits, mapped to 2000-2068 when at most 68 and to 1969-1999 otherwise. -/
def parseDMYCell (s : String) : Option Int :=
  match pySplit s '/' with
  | [ds, ms, ys] =>
    if digits1to2 ds && digits1to2 ms && (ys.length == 2) && allDigits ys then
      let yy : Int := (digitsToNat ys : Int)
      let y : Int := if yy ≤ 68 then yy + 2000 else yy + 1900
      let m : Int := (digitsToNat ms : Int)
      let d : Int := (digitsToNat ds : Int)
      if validYMD y m d then some (toEpochDay y m d) else none
    else none
  | _ => none

/-- The nested try of lines 168-177: `%Y-%m-%d` first, `%d/%m/%y` on failure. -/
def parseDateCell (s : String) : Option Int :=
  match parseYMDCell s with
  | some d => some d
  | none => parseDMYCell s

/-- The inner `for cell in row` loop: the first cell of the row that parses as a date,
breaking afterwards (cells after the first hit are not inspected). -/
def firstDateCell (row : List String) : Option Int := row.findSome? parseDateCell

/-- The `week_row_map` scan (lines 165-177), processed top to bottom with row index
`i` (1-based spreadsheet rows, data rows start at 2); a later row with the same
week-start date overwrites the earlier mapping. -/
def weekRowGo (m : List (Int × Nat)) (i : Nat) : List (List String) → List (Int × Nat)
  | [] => m
  | row :: rows =>
    weekRowGo (match firstDateCell row with
      | some d => dictSet m d i
      | none => m) (i + 1) rows

/-- `week_row_map` built from the full grid: data rows are `all_values[1:]`,
enumerated from 2. -/
def weekRowMap (grid : List (List String)) : List (Int × Nat) :=
  weekRowGo [] 2 (grid.drop 1)

/-- `week_row_map.get(week_monday)` (line 188). -/
def rowOf (grid : List (List String)) (weekMonday : Int) : Option Nat :=
  dget (weekRowMap grid) weekMonday

/-- `day_columns.get(day_name)` (line 189); `day_columns` is built from the grid's
first row. -/
def colOf (grid : List (List String)) (name : String) : Option Nat :=
  dget (dayColumns (grid.headD [])) name

/-- One iteration of the update loop (lines 185-198) over a `(date, minutes)` pair:
`if row_idx and col_idx is not None` (row index truthiness, column presence), then
`if minutes > 0` write `(row_idx, col_idx + 1, minutes)` and count, else skip.
The accumulator carries the list of performed cell writes and the `updates` count. -/
def applierStep (wrm : List (Int × Nat)) (dcols : List (String × Nat))
    (acc : List (Nat × Nat × Int) × Nat) (p : Int × Int) :
    List (Nat × Nat × Int) × Nat :=
  let weekMonday := getMonday p.1
  let dname := dayName p.1
  match dget wrm weekMonday, dget dcols dname with
  | some r, some c =>
    if r ≠ 0 then
      if 0 < p.2 then (acc.1 ++ [(r, c + 1, p.2)], acc.2 + 1) else acc
    else acc
  | _, _ => acc

/-- `update_running_sheet` (lines 129-200) on the in-memory grid: empty sheet and
missing day columns return `(no writes, 0)`; otherwise run the update loop and
return the performed cell writes together with the returned `updates` count. -/
def updateRunningSheet (grid : List (List String)) (rpd : List (Int × Int)) :
    List (Nat × Nat × Int) × Nat :=
  match grid with
  | [] => ([], 0)
  | headers :: rest =>
    let dcols := dayColumns headers
    if dcols = [] then ([], 0)
    else rpd.foldl (applierStep (weekRowMap (headers :: rest)) dcols) ([], 0)

/-- Spreadsheet interactions performed by the `sync` command. -/
inductive SheetEffect
  | openSheet
  | readGrid
  | writeCell (row col : Nat) (value : Int)
deriving DecidableEq, Repr

/-- The `sync` command (lines 207-218) after token acquisition: fetch and aggregate;
`if not running_per_day: return` with no sheet interaction; otherwise open the
sheet, read its grid, and apply the updates. `none` models an aggregation
exception. -/
def syncModel (src : Nat → List Workout × Option String)
    (grid : List (List String)) : Option (List SheetEffect) :=
  match getRunningActivities src with
  | none => none
  | some rpd =>
    if rpd = [] then some []
    else some (SheetEffect.openSheet :: SheetEffect.readGrid ::
      ((updateRunningSheet grid rpd).1.map
        (fun p => SheetEffect.writeCell p.1 p.2.1 p.2.2)))

/-- Modelled from the spec: an "UpdatePlan entry: {row index, column index, value:
minutes} — one per DailyAggregate entry that resolves to a known cell and has
minutes > 0" (1-indexed column, hence the `+ 1`). Used to state C1 against
`updateRunningSheet`. -/
def updatePlan (grid : List (List String)) (rpd : List (Int × Int)) :
    List (Nat × Nat × Int) :=
  rpd.filterMap (fun (p : Int × Int) =>
    match rowOf grid (getMonday p.1), colOf grid (dayName p.1) with
    | some r, some c => if 0 < p.2 then some (r, c + 1, p.2) else none
    | _, _ => none)

/-- Modelled from the spec: "a signed offset string of the form `±HH:MM`". Used to
state C4's notion of a well-formed offset. -/
def wellFormedOffset (s : String) : Bool :=
  match s.data with
  | [c0, h1, h2, c3, m1, m2] =>
    (c0 == '+' || c0 == '-') && h1.isDigit && h2.isDigit && (c3 == ':') &&
      m1.isDigit && m2.isDigit
  | _ => false

/-- Concatenation of the records of `n` consecutive pages starting at page `pc`;
used to state what the capped pagination loop collects. -/
def pagesConcat (src : Nat → List Workout × Option String) : Nat → Nat → List Workout
  | _, 0 => []
  | pc, Nat.succ k => (src pc).1 ++ pagesConcat src (pc + 1) k

/-- A record both candidates for aggregation must pass before localization: a truthy
id and a running sport type (the state-independent part of the loop's filters). -/
def goodRec (w : Workout) : Bool := (keyOf w).isSome && isRunning w.sport_id

/-- Localization of a record's start and end with its (defaulted) offset: the local
calendar date of the start and the truncated whole-minute duration, or `none` when
the offset fails to parse. -/
def parseBoth (w : Workout) : Option (Int × Int) :=
  let tz := w.timezone_offset.getD "+00:00"
  match parseWhoopLocal w.startSec tz, parseWhoopLocal w.endSec tz with
  | some sLoc, some eLoc => some (localDate sLoc, Int.tdiv (eLoc - sLoc) 60)
  | _, _ => none

/-- A record that reaches localization and makes the run raise (malformed offset). -/
def badRec (w : Workout) : Bool := goodRec w && (parseBoth w).isNone

/-- A record that, when not deduplicated away, contributes to the aggregate. -/
def contribRec (w : Workout) : Bool := goodRec w && (parseBoth w).isSome

/-- The local date a contributing record lands on. -/
def wLocalDate (w : Workout) : Int := ((parseBoth w).getD (0, 0)).1

/-- The truncated minute duration a contributing record adds. -/
def wDurMin (w : Workout) : Int := ((parseBoth w).getD (0, 0)).2

/-- The contributing records of a run that land on local date `d`. -/
def contribList (l : List Workout) (d : Int) : List Workout :=
  l.filter (fun w => contribRec w && (wLocalDate w == d))

/-- Total minutes contributed to local date `d` by a run's records. -/
def csum (l : List Workout) (d : Int) : Int := ((contribList l d).map wDurMin).sum

/-- A pagination source that always returns a (truthy) continuation token, with no
records: the concrete input for the pagination-ceiling claim. -/
def cexSrc : Nat → List Workout × Option String := fun _ => ([], some "t")

/-- A pagination source that immediately reports no further pages and no records. -/
def emptySrc : Nat → List Workout × Option String := fun _ => ([], none)

/-- A record whose end precedes its start by one hour (C5 counterexample). -/
def cexW5 : Workout := ⟨some "a", some 0, 3600, 0, some "+00:00"⟩

/-- A well-behaved half-hour running record (C5 witness). -/
def wPos : Workout := ⟨some "a", some 0, 0, 1800, some "+00:00"⟩

/-- A non-running record with id "x" (C6 counterexample, first of the pair). -/
def cexW6a : Workout := ⟨some "x", some 7, 0, 600, some "+00:00"⟩

/-- A running record repeating id "x" (C6 counterexample, second of the pair). -/
def cexW6b : Workout := ⟨some "x", some 0, 0, 1800, some "+00:00"⟩

/-- A running record with id "x" lasting 30 minutes (C7 counterexample). -/
def cexW7a : Workout := ⟨some "x", some 0, 0, 1800, some "+00:00"⟩

/-- A running record repeating id "x", lasting 60 minutes (C7 counterexample). -/
def cexW7b : Workout := ⟨some "x", some 0, 0, 3600, some "+00:00"⟩

/-- Running records with distinct ids on the same local date (C7 witness). -/
def wPermA : Workout := ⟨some "a", some 0, 0, 1800, some "+00:00"⟩

/-- Second distinct-id record for the C7 witness. -/
def wPermB : Workout := ⟨some "b", some 0, 0, 3600, some "+00:00"⟩

/-- A 45-second running record: truncation yields 0 minutes (C9 witness). -/
def wZero : Workout := ⟨some "r1", some 0, 0, 45, some "+00:00"⟩

/-- An arbitrary fixed record used to instantiate C4's default-offset equation. -/
def wPlain : Workout := ⟨some "p", some 0, 0, 600, none⟩

/-- A running record with a falsy (empty-string) identifier. -/
def wFalsy : Workout := ⟨some "", some 0, 0, 60, some "+00:00"⟩

/-! ## Basic dictionary lemmas -/

theorem dget_dictSet {α β : Type} [DecidableEq α] (m : List (α × β)) (k a : α) (v : β) :
    dget (dictSet m k v) a = if k = a then some v else dget m a := by
  induction m with
  | nil => simp [dictSet, dget]
  | cons p rest ih =>
    obtain ⟨k2, x⟩ := p
    by_cases h1 : k2 = k
    · subst h1
      by_cases h2 : k2 = a
      · subst h2; simp [dictSet, dget]
      · simp [dictSet, dget, h2]
    · by_cases h2 : k = a
      · subst h2
        simp [dictSet, dget, h1, ih]
      · by_cases h3 : k2 = a
        · subst h3; simp [dictSet, dget, h1, h2]
        · simp [dictSet, dget, h1, h2, h3, ih]

theorem dget_bump (m : List (Int × Int)) (d v e : Int) :
    dget (bump m d v) e = if d = e then some ((dget m d).getD 0 + v) else dget m e := by
  induction m with
  | nil => by_cases h : d = e <;> simp [bump, dget, h]
  | cons p rest ih =>
    obtain ⟨k, x⟩ := p
    by_cases h1 : k = d
    · subst h1
      by_cases h2 : k = e <;> simp [bump, dget, h2]
    · by_cases h2 : k = e
      · subst h2
        have hne : d ≠ k := fun h => h1 h.symm
        simp [bump, dget, h1, hne]
      · simp [bump, dget, h1, h2, ih]

/-! ## Week-row map invariant: all row indices are at least 2 -/

theorem weekRowGo_ge (rows : List (List String)) :
    ∀ (m : List (Int × Nat)) (i : Nat), 2 ≤ i →
    (∀ d r, dget m d = some r → 2 ≤ r) →
    ∀ d r, dget (weekRowGo m i rows) d = some r → 2 ≤ r := by
  induction rows with
  | nil => intro m i _ hm d r h; exact hm d r h
  | cons row rows ih =>
    intro m i hi hm d r h
    simp only [weekRowGo] at h
    cases hcell : firstDateCell row with
    | none =>
      rw [hcell] at h
      exact ih m (i + 1) (by omega) hm d r h
    | some d0 =>
      rw [hcell] at h
      refine ih _ (i + 1) (by omega) ?_ d r h
      intro d2 r2 h2
      rw [dget_dictSet] at h2
      by_cases hd : d0 = d2
      · simp [hd] at h2; omega
      · simp [hd] at h2; exact hm d2 r2 h2

theorem weekRowMap_ge (grid : List (List String)) (d : Int) (r : Nat)
    (h : dget (weekRowMap grid) d = some r) : 2 ≤ r :=
  weekRowGo_ge (grid.drop 1) [] 2 (le_refl 2) (by intro d r h; simp [dget] at h) d r h

/-! ## The update loop computes exactly the update plan -/

theorem applier_foldl (grid : List (List String)) :
    ∀ (rpd : List (Int × Int)) (acc : List (Nat × Nat × Int) × Nat),
    List.foldl (applierStep (weekRowMap grid) (dayColumns (grid.headD []))) acc rpd
      = (acc.1 ++ updatePlan grid rpd, acc.2 + (updatePlan grid rpd).length) := by
  intro rpd
  induction rpd with
  | nil => intro acc; simp [updatePlan]
  | cons p tl ih =>
    intro acc
    rw [List.foldl_cons]
    cases hr : dget (weekRowMap grid) (getMonday p.1) with
    | none =>
      have hrow : rowOf grid (getMonday p.1) = none := hr
      have hplan : updatePlan grid (p :: tl) = updatePlan grid tl := by
        simp only [updatePlan, List.filterMap_cons, hrow]
      have hstep : applierStep (weekRowMap grid) (dayColumns (grid.headD [])) acc p = acc := by
        simp only [applierStep, hr]
      rw [hstep, hplan]; exact ih acc
    | some r =>
      have hrow : rowOf grid (getMonday p.1) = some r := hr
      cases hc : dget (dayColumns (grid.headD [])) (dayName p.1) with
      | none =>
        have hcol : colOf grid (dayName p.1) = none := hc
        have hplan : updatePlan grid (p :: tl) = updatePlan grid tl := by
          simp only [updatePlan, List.filterMap_cons, hrow, hcol]
        have hstep : applierStep (weekRowMap grid) (dayColumns (grid.headD [])) acc p = acc := by
          simp only [applierStep, hr, hc]
        rw [hstep, hplan]; exact ih acc
      | some c =>
        have hcol : colOf grid (dayName p.1) = some c := hc
        have hr0 : r ≠ 0 := by have := weekRowMap_ge grid _ _ hr; omega
        by_cases hm : 0 < p.2
        · have hplan : updatePlan grid (p :: tl) = (r, c + 1, p.2) :: updatePlan grid tl := by
            simp only [updatePlan, List.filterMap_cons, hrow, hcol, if_pos hm]
          have hstep : applierStep (weekRowMap grid) (dayColumns (grid.headD [])) acc p
              = (acc.1 ++ [(r, c + 1, p.2)], acc.2 + 1) := by
            simp only [applierStep, hr, hc, if_pos hm]
            rw [if_pos hr0]
          rw [hstep, hplan, ih]
          refine Prod.ext ?_ ?_
          · simp
          · simp; omega
        · have hplan : updatePlan grid (p :: tl) = updatePlan grid tl := by
            simp only [updatePlan, List.filterMap_cons, hrow, hcol, if_neg hm]
          have hstep : applierStep (weekRowMap grid) (dayColumns (grid.headD [])) acc p = acc := by
            simp only [applierStep, hr, hc, if_neg hm]
            rw [if_pos hr0]
          rw [hstep, hplan]; exact ih acc

/-- C1. For every DailyAggregate entry whose week-start row and weekday column both
resolve in the grid, the Applier writes that minutes value into the resolved
(1-indexed row, 1-indexed column) cell exactly once per sync call when
minutes > 0 and counts it, performs no write when minutes == 0, and the
function's return value equals the total count of applied cell writes: the
writes performed by `update_running_sheet` are exactly the update plan, and the
returned count is that plan's length. -/
theorem C1_applier_writes_plan (grid : List (List String)) (rpd : List (Int × Int)) :
    updateRunningSheet grid rpd = (updatePlan grid rpd, (updatePlan grid rpd).length) := by
  match grid with
  | [] =>
    have hplan : updatePlan [] rpd = [] := by
      refine List.filterMap_eq_nil_iff.mpr ?_
      intro p _
      simp [rowOf, weekRowMap, weekRowGo, dget]
    simp [updateRunningSheet, hplan]
  | headers :: rest =>
    by_cases hdc : dayColumns headers = []
    · have hplan : updatePlan (headers :: rest) rpd = [] := by
        refine List.filterMap_eq_nil_iff.mpr ?_
        intro p _
        simp [colOf, hdc, dget]
      simp [updateRunningSheet, hdc, hplan]
    · have := applier_foldl (headers :: rest) rpd ([], 0)
      simp only [List.headD_cons] at this
      simp [updateRunningSheet, hdc, this]

/-! ## Day-column characterization -/

theorem dget_dayColumnsGo (hs : List String) :
    ∀ (m : List (String × Nat)) (i : Nat) (k : String),
    (dget (dayColumnsGo m i hs) k ≠ none ↔
      dget m k ≠ none ∨ ∃ h ∈ hs, pyStrip h = k ∧ pyLower (pyStrip h) ∈ WEEKDAYS_LOWER) := by
  induction hs with
  | nil => intro m i k; simp [dayColumnsGo]
  | cons h hs ih =>
    intro m i k
    by_cases hw : pyLower (pyStrip h) ∈ WEEKDAYS_LOWER
    · simp only [dayColumnsGo, if_pos hw]
      rw [ih]
      constructor
      · rintro (hm | ⟨h2, hmem, ht, hw2⟩)
        · rw [dget_dictSet] at hm
          by_cases he : pyStrip h = k
          · exact Or.inr ⟨h, List.mem_cons_self h hs, he, hw⟩
          · rw [if_neg he] at hm
            exact Or.inl hm
        · exact Or.inr ⟨h2, List.mem_cons_of_mem h hmem, ht, hw2⟩
      · rintro (hm | ⟨h2, hmem, ht, hw2⟩)
        · left
          rw [dget_dictSet]
          by_cases he : pyStrip h = k
          · simp [he]
          · rw [if_neg he]; exact hm
        · rcases List.mem_cons.mp hmem with heq | hmem2
          · subst heq
            left
            rw [dget_dictSet, if_pos ht]
            simp
          · exact Or.inr ⟨h2, hmem2, ht, hw2⟩
    · simp only [dayColumnsGo, if_neg hw]
      rw [ih]
      constructor
      · rintro (hm | ⟨h2, hmem, ht, hw2⟩)
        · exact Or.inl hm
        · exact Or.inr ⟨h2, List.mem_cons_of_mem h hmem, ht, hw2⟩
      · rintro (hm | ⟨h2, hmem, ht, hw2⟩)
        · exact Or.inl hm
        · rcases List.mem_cons.mp hmem with heq | hmem2
          · subst heq; exact absurd (ht ▸ hw2) hw
          · exact Or.inr ⟨h2, hmem2, ht, hw2⟩

theorem dget_dayColumns (headers : List String) (k : String) :
    dget (dayColumns headers) k ≠ none ↔
      ∃ h ∈ headers, pyStrip h = k ∧ pyLower (pyStrip h) ∈ WEEKDAYS_LOWER := by
  rw [dayColumns, dget_dayColumnsGo]
  simp [dget]

/-- The weekday name produced for any date is one of the seven title-case names, and
its lowercasing is recognized by the header scan. -/
theorem dayName_facts (d : Int) :
    dayName d ∈ DAY_NAMES ∧ pyStrip (dayName d) = dayName d ∧
      pyLower (pyStrip (dayName d)) ∈ WEEKDAYS_LOWER := by
  have h7 : pyWeekday d < 7 := by
    have h1 : 0 ≤ (d + 3).emod 7 := Int.emod_nonneg _ (by decide)
    have h2 : (d + 3).emod 7 < 7 := Int.emod_lt_of_pos _ (by decide)
    simp only [pyWeekday]
    omega
  have : pyWeekday d = 0 ∨ pyWeekday d = 1 ∨ pyWeekday d = 2 ∨ pyWeekday d = 3 ∨
      pyWeekday d = 4 ∨ pyWeekday d = 5 ∨ pyWeekday d = 6 := by omega
  rcases this with h | h | h | h | h | h | h <;>
    simp [dayName, h, DAY_NAMES, WEEKDAYS_LOWER] <;> decide

/-! ## Pagination -/

theorem paginateFrom_allTok (src : Nat → List Workout × Option String)
    (htok : ∀ n, tokenTruthy (src n).2 = true) :
    ∀ (k pc : Nat) (acc : List Workout), pc + k = 101 →
    paginateFrom src pc acc = (acc ++ pagesConcat src pc (k + 1), 101) := by
  intro k
  induction k with
  | zero =>
    intro pc acc hpc
    have hpc1 : pc = 101 := by omega
    subst hpc1
    rw [paginateFrom]
    simp [htok 101, pagesConcat]
  | succ k ih =>
    intro pc acc hpc
    rw [paginateFrom]
    simp only [htok pc]
    have hlt : ¬ 100 < pc := by omega
    rw [if_neg (by simp), if_neg hlt, ih (pc + 1) (acc ++ (src pc).1) (by omega)]
    simp [pagesConcat]

/-- C3 counterexample. The claim "a source returning a continuation token on every
response stops collecting after exactly 100 pages" is false of the code: the
`page_count > 100` guard runs only after a page has been fetched, so the loop
requests and collects a 101st page (`paginate cexSrc` finishes with
`page_count = 101`, not 100). -/
theorem C3_counterexample_not_100_pages :
    ¬ (∀ src : Nat → List Workout × Option String,
        (∀ n, tokenTruthy (src n).2 = true) → (paginate src).2 = 100) := by
  intro h
  have h1 := h cexSrc (fun _ => rfl)
  have h2 := paginateFrom_allTok cexSrc (fun _ => rfl) 100 1 [] (by omega)
  rw [paginate, h2] at h1
  simp at h1

/-- C3 (amended). For a paginated source that returns a continuation token on every
response, the collection loop stops after exactly 101 pages (the `page_count > 100`
ceiling is checked only after the fetch), collects precisely the records of pages
1 through 101, and the Aggregator then aggregates that partial record list without
raising an error. -/
theorem C3_pagination_stops_at_101 (src : Nat → List Workout × Option String)
    (htok : ∀ n, tokenTruthy (src n).2 = true) :
    (paginate src).2 = 101 ∧ (paginate src).1 = pagesConcat src 1 101 ∧
      getRunningActivities src = aggregateWorkouts (pagesConcat src 1 101) := by
  have h2 := paginateFrom_allTok src htok 100 1 [] (by omega)
  refine ⟨?_, ?_, ?_⟩
  · rw [paginate, h2]
  · rw [paginate, h2]; simp
  · rw [getRunningActivities, paginate, h2]; simp

/-- Witness for C3's amended theorem at the concrete always-token source. -/
theorem C3_witness_always_token :
    (paginate cexSrc).2 = 101 ∧ (paginate cexSrc).1 = pagesConcat cexSrc 1 101 ∧
      getRunningActivities cexSrc = aggregateWorkouts (pagesConcat cexSrc 1 101) :=
  C3_pagination_stops_at_101 cexSrc (fun _ => rfl)

/-! ## Sync-level frame property -/

/-- C10. When the Aggregator returns an empty DailyAggregate, the sync command
returns without error and performs no spreadsheet interaction at all: no sheet
open, no grid read, no cell write. -/
theorem C10_empty_aggregate_no_sheet_effects (src : Nat → List Workout × Option String)
    (grid : List (List String)) (h : getRunningActivities src = some []) :
    syncModel src grid = some [] := by
  simp [syncModel, h]

/-- Witness for C10 at a source with no records. -/
theorem C10_witness : getRunningActivities emptySrc = some [] ∧
    syncModel emptySrc [] = some [] := by
  have hempty : getRunningActivities emptySrc = some [] := by
    unfold getRunningActivities paginate
    rw [paginateFrom]
    simp [emptySrc, tokenTruthy, aggregateWorkouts, aggFrom]
  exact ⟨hempty, C10_empty_aggregate_no_sheet_effects emptySrc [] hempty⟩

/-! ## Misconfigured sheet -/

/-- C8. If the sheet grid is empty, or its header row contains no recognized weekday
columns, the update phase returns 0 to the caller with zero cell writes performed
(and, being a returned value rather than a raised exception, does not abort). -/
theorem C8_empty_or_no_day_columns (grid : List (List String)) (rpd : List (Int × Int))
    (h : grid = [] ∨ dayColumns (grid.headD []) = []) :
    updateRunningSheet grid rpd = ([], 0) := by
  rcases h with h | h
  · subst h; rfl
  · cases grid with
    | nil => rfl
    | cons headers rest =>
      simp only [List.headD_cons] at h
      simp [updateRunningSheet, h]

/-- Witness for C8: a grid whose header row has no weekday columns. -/
theorem C8_witness : updateRunningSheet [["Total", "Week"], ["2024-06-10", "5"]]
    [(19884, 30)] = ([], 0) :=
  C8_empty_or_no_day_columns _ _ (Or.inr (by decide))

/-! ## Day-column lookup (C2) -/

/-- C2 counterexample. The claim "the Applier's column lookup succeeds regardless of
the header cell's capitalization" is false of the code: the header `"monday"` is
recognized case-insensitively and enters `day_columns` under its original-case key,
but the lookup uses the title-case `strftime('%A')` name `"Monday"` and fails. -/
theorem C2_counterexample_case_sensitive_lookup :
    pyLower (pyStrip "monday") ∈ WEEKDAYS_LOWER ∧
      dayColumns ["monday"] = [("monday", 0)] ∧
      dayName 4 = "Monday" ∧
      dget (dayColumns ["monday"]) (dayName 4) = none := by decide

/-- C2 (amended). Every header cell whose trimmed text case-insensitively equals a
weekday name produces a `day_columns` entry keyed by the cell's trimmed
original-case text; the Applier's lookup uses the title-case day name, so for any
date it succeeds exactly when some header's trimmed text equals that title-case
name verbatim. -/
theorem C2_day_column_lookup (headers : List String) (d : Int) :
    (∀ h ∈ headers, pyLower (pyStrip h) ∈ WEEKDAYS_LOWER →
        dget (dayColumns headers) (pyStrip h) ≠ none)
    ∧ (dget (dayColumns headers) (dayName d) ≠ none ↔
        ∃ h ∈ headers, pyStrip h = dayName d) := by
  constructor
  · intro h hmem hw
    exact (dget_dayColumns headers (pyStrip h)).mpr ⟨h, hmem, rfl, hw⟩
  · rw [dget_dayColumns]
    constructor
    · rintro ⟨h, hmem, ht, _⟩
      exact ⟨h, hmem, ht⟩
    · rintro ⟨h, hmem, ht⟩
      refine ⟨h, hmem, ht, ?_⟩
      rw [ht, ← (dayName_facts d).2.1]
      exact (dayName_facts d).2.2

/-- Witness for C2's amended theorem: a title-case header resolves for a Monday. -/
theorem C2_witness_title_case :
    dget (dayColumns ["Monday"]) (dayName 4) ≠ none :=
  (C2_day_column_lookup ["Monday"] 4).2.mpr ⟨"Monday", by decide, by decide⟩

/-! ## Offset parsing (C4) -/

theorem parseOffset_none_iff (s : String) :
    parseOffset s = none ↔ s = "" ∨ offsetTailOk (s.drop 1) = false := by
  by_cases hs2 : s = ""
  · subst hs2
    rw [parseOffset, if_pos ((String.isEmpty_iff "").mpr rfl)]
    simp
  · have hs : ¬ (s.isEmpty = true) := fun h => hs2 ((String.isEmpty_iff s).mp h)
    rw [parseOffset, if_neg hs]
    cases hsplit : pySplit (s.drop 1) ':' with
    | nil => simp [offsetTailOk, hsplit, hs2]
    | cons a l2 =>
      cases l2 with
      | nil => simp [offsetTailOk, hsplit, hs2]
      | cons b l3 =>
        cases l3 with
        | nil =>
          cases ha : pyIntOf a with
          | none => simp [offsetTailOk, hsplit, ha, hs2]
          | some x =>
            cases hb : pyIntOf b with
            | none => simp [offsetTailOk, hsplit, ha, hb, hs2]
            | some y => simp [offsetTailOk, hsplit, ha, hb, hs2]
        | cons c l4 => simp [offsetTailOk, hsplit, hs2]

/-- C4 counterexample. The claim "every offset string not of the form ±HH:MM fails
with a parse error" is false of the code: `"02:00"` lacks a leading sign, yet the
localizer consumes its first character as an implicit negative sign and produces a
localized instant with offset −02:00 rather than raising. -/
theorem C4_counterexample_unsigned_offset_parses :
    wellFormedOffset "02:00" = false ∧ parseOffset "02:00" = some (-120) ∧
      parseWhoopLocal 0 "02:00" = some (-7200) := by decide

/-- C4 (amended). For offset strings not of the form ±HH:MM, the localizer raises a
parse error exactly when the string is empty or the remainder after its first
character is not two `:`-separated integers; in particular a string lacking a
leading sign character does not fail (its first character is consumed as a
negative sign). A missing offset field still defaults to `'+00:00'`. -/
theorem C4_offset_failure_characterization (s : String) (st : AggState) (w : Workout) :
    (wellFormedOffset s = false →
      (parseOffset s = none ↔ s = "" ∨ offsetTailOk (s.drop 1) = false))
    ∧ processWorkout st { w with timezone_offset := none }
        = processWorkout st { w with timezone_offset := some "+00:00" } := by
  refine ⟨fun _ => parseOffset_none_iff s, ?_⟩
  obtain ⟨wid, sport, sSec, eSec, tz⟩ := w
  rfl

/-- Witness for C4's amended theorem at the unsigned offset string. -/
theorem C4_witness_offset :
    (parseOffset "02:00" = none ↔ "02:00" = "" ∨ offsetTailOk ("02:00".drop 1) = false)
    ∧ processWorkout ⟨[], []⟩ { wPlain with timezone_offset := none }
        = processWorkout ⟨[], []⟩ { wPlain with timezone_offset := some "+00:00" } :=
  ⟨(C4_offset_failure_characterization "02:00" ⟨[], []⟩ wPlain).1 (by decide),
   (C4_offset_failure_characterization "02:00" ⟨[], []⟩ wPlain).2⟩

/-! ## Aggregation step lemmas -/

theorem parseWhoopLocal_sub (a b : Int) (tz : String) (x y : Int)
    (hx : parseWhoopLocal a tz = some x) (hy : parseWhoopLocal b tz = some y) :
    y - x = b - a := by
  unfold parseWhoopLocal at hx hy
  cases hoff : parseOffset tz with
  | none => rw [hoff] at hx; simp at hx
  | some off =>
    rw [hoff] at hx hy
    simp at hx hy
    omega

theorem processWorkout_some (st : AggState) (w : Workout) (st1 : AggState)
    (h : processWorkout st w = some st1) :
    st1 = st ∨ ∃ wid sLoc eLoc, w.id = some wid ∧
      parseWhoopLocal w.startSec (w.timezone_offset.getD "+00:00") = some sLoc ∧
      parseWhoopLocal w.endSec (w.timezone_offset.getD "+00:00") = some eLoc ∧
      st1 = ⟨wid :: st.seen,
        bump st.agg (localDate sLoc) (Int.tdiv (eLoc - sLoc) 60)⟩ := by
  cases hid : w.id with
  | none =>
    simp only [processWorkout, hid, Option.some.injEq] at h
    exact Or.inl h.symm
  | some wid =>
    simp only [processWorkout, hid] at h
    by_cases h1 : wid = ""
    · rw [if_pos h1] at h
      exact Or.inl (Option.some.inj h).symm
    · rw [if_neg h1] at h
      by_cases h2 : wid ∈ st.seen
      · rw [if_pos h2] at h
        exact Or.inl (Option.some.inj h).symm
      · rw [if_neg h2] at h
        by_cases h3 : isRunning w.sport_id = false
        · rw [if_pos h3] at h
          exact Or.inl (Option.some.inj h).symm
        · rw [if_neg h3] at h
          cases hs : parseWhoopLocal w.startSec (w.timezone_offset.getD "+00:00") with
          | none =>
            rw [hs] at h
            cases he : parseWhoopLocal w.endSec (w.timezone_offset.getD "+00:00") <;>
              rw [he] at h <;> simp at h
          | some sLoc =>
            rw [hs] at h
            cases he : parseWhoopLocal w.endSec (w.timezone_offset.getD "+00:00") with
            | none => rw [he] at h; simp at h
            | some eLoc =>
              rw [he] at h
              exact Or.inr ⟨wid, sLoc, eLoc, rfl, rfl, rfl, (Option.some.inj h).symm⟩

theorem aggFrom_nonneg (l : List Workout) :
    ∀ st : AggState, (∀ w ∈ l, w.startSec ≤ w.endSec) →
    (∀ d v, dget st.agg d = some v → 0 ≤ v) →
    ∀ st2, aggFrom st l = some st2 → ∀ d v, dget st2.agg d = some v → 0 ≤ v := by
  induction l with
  | nil =>
    intro st _ hst st2 h
    simp only [aggFrom, Option.some.injEq] at h
    exact h ▸ hst
  | cons w ws ih =>
    intro st hle hst st2 h
    simp only [aggFrom] at h
    cases hp : processWorkout st w with
    | none => rw [hp] at h; simp at h
    | some st1 =>
      rw [hp] at h
      refine ih st1 (fun w2 hw2 => hle w2 (List.mem_cons_of_mem _ hw2)) ?_ st2 h
      rcases processWorkout_some st w st1 hp with heq | ⟨wid, sLoc, eLoc, _, hs, he, heq⟩
      · exact heq ▸ hst
      · subst heq
        intro d v hv
        simp only at hv
        rw [dget_bump] at hv
        have hdur : 0 ≤ Int.tdiv (eLoc - sLoc) 60 := by
          have hsub : eLoc - sLoc = w.endSec - w.startSec :=
            parseWhoopLocal_sub w.startSec w.endSec _ sLoc eLoc hs he
          have hnn : 0 ≤ eLoc - sLoc := by
            have := hle w (List.mem_cons_self w ws)
            omega
          exact Int.tdiv_nonneg hnn (by omega)
        by_cases hd : localDate sLoc = d
        · rw [if_pos hd] at hv
          have hv2 := Option.some.inj hv
          cases hg : dget st.agg (localDate sLoc) with
          | none => rw [hg] at hv2; simp at hv2; omega
          | some g =>
            rw [hg] at hv2
            have := hst _ _ hg
            simp at hv2
            omega
        · rw [if_neg hd] at hv
          exact hst d v hv

/-- C5 counterexample. The claim "every value in the DailyAggregate is a non-negative
integer for arbitrary start/end timestamps" is false of the code: a record whose
end precedes its start contributes negative minutes. -/
theorem C5_counterexample_negative_minutes :
    aggregateWorkouts [cexW5] = some [(0, -60)] ∧
      dget [((0 : Int), (-60 : Int))] 0 = some (-60) ∧ ((-60 : Int) < 0) := by decide

/-- C5 (amended). Every value in the DailyAggregate returned by the Aggregator is a
non-negative integer provided every input record's end instant is not earlier than
its start instant; without that proviso, negative values are possible. -/
theorem C5_aggregate_nonneg (l : List Workout) (A : List (Int × Int))
    (hle : ∀ w ∈ l, w.startSec ≤ w.endSec)
    (hagg : aggregateWorkouts l = some A) :
    ∀ d v, dget A d = some v → 0 ≤ v := by
  unfold aggregateWorkouts at hagg
  cases hf : aggFrom ⟨[], []⟩ l with
  | none => rw [hf] at hagg; simp at hagg
  | some st2 =>
    rw [hf] at hagg
    simp at hagg
    intro d v hv
    refine aggFrom_nonneg l ⟨[], []⟩ hle ?_ st2 hf d v ?_
    · intro d2 v2 h2; simp [dget] at h2
    · rw [hagg]; exact hv

/-- Witness for C5's amended theorem at a well-formed half-hour record. -/
theorem C5_witness_nonneg :
    aggregateWorkouts [wPos] = some [(0, 30)] ∧ (0 : Int) ≤ 30 :=
  ⟨by decide, C5_aggregate_nonneg [wPos] [(0, 30)] (by decide) (by decide) 0 30 (by decide)⟩

/-! ## Deduplication (C6) -/

theorem processWorkout_keyNone (st : AggState) (w : Workout) (h : keyOf w = none) :
    processWorkout st w = some st := by
  cases hid : w.id with
  | none => simp [processWorkout, hid]
  | some wid =>
    simp only [keyOf, hid] at h
    by_cases h1 : wid = ""
    · simp [processWorkout, hid, h1]
    · simp [h1] at h

theorem aggFrom_append (st : AggState) (a b : List Workout) :
    aggFrom st (a ++ b) = match aggFrom st a with
      | none => none
      | some st2 => aggFrom st2 b := by
  induction a generalizing st with
  | nil => simp [aggFrom]
  | cons w ws ih =>
    simp only [List.cons_append, aggFrom]
    cases hp : processWorkout st w with
    | none => simp
    | some st1 => simp [ih st1]

/-- C6 counterexample. The claim "for every pair of records sharing an identifier,
only the first contributes and the repeat is discarded" is false of the code:
ids are recorded in `seen_workout_ids` only after a record is aggregated, so when
the first record of the pair is filtered out by sport type, the repeat is processed
and contributes. Here `[cexW6a, cexW6b]` share id "x"; alone, `cexW6a` contributes
nothing, yet the pair aggregates the repeat's 30 minutes. -/
theorem C6_counterexample_repeat_contributes :
    aggregateWorkouts [cexW6a, cexW6b] = some [(0, 30)] ∧
      aggregateWorkouts [cexW6a] = some [] := by decide

/-- C6 (amended). Records with a missing or falsy identifier never contribute (they
leave the state untouched, and deleting one from a run leaves the aggregate
unchanged); a record whose identifier is already in `seen_workout_ids` is
discarded; and an aggregated record records its identifier, so later repeats of an
*aggregated* record are discarded. A repeat of a record that was itself skipped by
the sport filter is, however, processed normally. -/
theorem C6_dedup_behaviour (st : AggState) (w : Workout) (l1 l2 : List Workout) :
    (keyOf w = none → processWorkout st w = some st)
    ∧ (keyOf w = none → aggFrom st (l1 ++ w :: l2) = aggFrom st (l1 ++ l2))
    ∧ (∀ i, w.id = some i → i ∈ st.seen → processWorkout st w = some st)
    ∧ (∀ i st2, w.id = some i → i ∉ st.seen → i ≠ "" → isRunning w.sport_id = true →
        processWorkout st w = some st2 → st2.seen = i :: st.seen) := by
  refine ⟨processWorkout_keyNone st w, ?_, ?_, ?_⟩
  · intro hk
    rw [aggFrom_append, aggFrom_append]
    cases aggFrom st l1 with
    | none => rfl
    | some st2 =>
      simp only []
      rw [show aggFrom st2 (w :: l2) = aggFrom st2 l2 from ?_]
      simp only [aggFrom, processWorkout_keyNone st2 w hk]
  · intro i hid hseen
    simp only [processWorkout, hid]
    by_cases h1 : i = ""
    · simp [h1]
    · simp [h1, hseen]
  · intro i st2 hid hnot hne hrun hp
    simp only [processWorkout, hid, if_neg hne, if_neg hnot, hrun] at hp
    simp only [Bool.true_eq_false, if_false] at hp
    cases hs : parseWhoopLocal w.startSec (w.timezone_offset.getD "+00:00") with
    | none =>
      rw [hs] at hp
      cases he : parseWhoopLocal w.endSec (w.timezone_offset.getD "+00:00") <;>
        rw [he] at hp <;> simp at hp
    | some sLoc =>
      rw [hs] at hp
      cases he : parseWhoopLocal w.endSec (w.timezone_offset.getD "+00:00") with
      | none => rw [he] at hp; simp at hp
      | some eLoc =>
        rw [he] at hp
        rw [← Option.some.inj hp]

/-- Witness for C6's amended theorem at concrete records: a falsy-id record is a
no-op (pointwise and within a run), a seen id is discarded, and an aggregated
record records its id. -/
theorem C6_witness_dedup :
    processWorkout ⟨[], []⟩ wFalsy = some ⟨[], []⟩
    ∧ aggFrom ⟨[], []⟩ ([] ++ wFalsy :: [cexW6b]) = aggFrom ⟨[], []⟩ ([] ++ [cexW6b])
    ∧ processWorkout ⟨["x"], []⟩ cexW6b = some ⟨["x"], []⟩
    ∧ (⟨["x"], [(0, 30)]⟩ : AggState).seen = "x" :: (⟨[], []⟩ : AggState).seen :=
  ⟨(C6_dedup_behaviour ⟨[], []⟩ wFalsy [] [cexW6b]).1 (by decide),
   (C6_dedup_behaviour ⟨[], []⟩ wFalsy [] [cexW6b]).2.1 (by decide),
   (C6_dedup_behaviour ⟨["x"], []⟩ cexW6b [] []).2.2.1 "x" (by decide) (by decide),
   (C6_dedup_behaviour ⟨[], []⟩ cexW6b [] []).2.2.2 "x" ⟨["x"], [(0, 30)]⟩ (by decide)
     (by decide) (by decide) (by decide) (by decide)⟩

/-! ## Duration semantics (C9) -/

/-- C9. For every qualifying record (truthy unseen id, running sport, parseable
offset), the contributed duration is the truncated whole number of minutes between
localized end and localized start — which equals the truncated minutes between the
raw instants — and the record's local date is present in the aggregate afterwards
with its previous total plus that duration, even when the duration is 0. -/
theorem C9_duration_truncation_inclusion (st : AggState) (w : Workout) (i : String)
    (off : Int) (hid : w.id = some i) (hne : i ≠ "") (hnot : i ∉ st.seen)
    (hrun : isRunning w.sport_id = true)
    (hoff : parseOffset (w.timezone_offset.getD "+00:00") = some off) :
    Int.tdiv ((w.endSec + 60 * off) - (w.startSec + 60 * off)) 60
        = Int.tdiv (w.endSec - w.startSec) 60
    ∧ processWorkout st w = some ⟨i :: st.seen,
        bump st.agg (localDate (w.startSec + 60 * off))
          (Int.tdiv (w.endSec - w.startSec) 60)⟩
    ∧ dget (bump st.agg (localDate (w.startSec + 60 * off))
          (Int.tdiv (w.endSec - w.startSec) 60)) (localDate (w.startSec + 60 * off))
        = some ((dget st.agg (localDate (w.startSec + 60 * off))).getD 0
            + Int.tdiv (w.endSec - w.startSec) 60) := by
  have harith : (w.endSec + 60 * off) - (w.startSec + 60 * off)
      = w.endSec - w.startSec := by ring
  have hs : parseWhoopLocal w.startSec (w.timezone_offset.getD "+00:00")
      = some (w.startSec + 60 * off) := by
    unfold parseWhoopLocal; rw [hoff]; rfl
  have he : parseWhoopLocal w.endSec (w.timezone_offset.getD "+00:00")
      = some (w.endSec + 60 * off) := by
    unfold parseWhoopLocal; rw [hoff]; rfl
  refine ⟨by rw [harith], ?_, ?_⟩
  · simp only [processWorkout, hid, if_neg hne, if_neg hnot, hrun,
      Bool.true_eq_false, if_false, hs, he, harith]
  · rw [dget_bump]
    simp

/-- Witness for C9 at a 45-second record: truncation yields 0 minutes and the date
still enters the aggregate with value 0. -/
theorem C9_witness :
    processWorkout ⟨[], []⟩ wZero = some ⟨["r1"], [(0, 0)]⟩ ∧
      dget [((0 : Int), (0 : Int))] 0 = some 0 := by
  have h := C9_duration_truncation_inclusion ⟨[], []⟩ wZero "r1" 0 rfl (by decide)
    (by decide) (by decide) (by decide)
  exact ⟨h.2.1.trans (by decide), by decide⟩

/-! ## Closed form of the aggregation loop (towards C7) -/

theorem keyOf_some (w : Workout) (i : String) (h : keyOf w = some i) :
    w.id = some i ∧ i ≠ "" := by
  cases hid : w.id with
  | none => simp [keyOf, hid] at h
  | some j =>
    simp only [keyOf, hid] at h
    by_cases h1 : j = ""
    · simp [h1] at h
    · rw [if_neg h1] at h
      have hji : j = i := Option.some.inj h
      subst hji
      exact ⟨rfl, h1⟩

theorem processWorkout_skip_nonrunning (st : AggState) (w : Workout) (i : String)
    (hk : keyOf w = some i) (hnot : i ∉ st.seen)
    (hrun : isRunning w.sport_id = false) : processWorkout st w = some st := by
  obtain ⟨hid, hne⟩ := keyOf_some w i hk
  simp [processWorkout, hid, hne, hnot, hrun]

theorem processWorkout_fail (st : AggState) (w : Workout) (i : String)
    (hk : keyOf w = some i) (hnot : i ∉ st.seen)
    (hrun : isRunning w.sport_id = true) (hpb : parseBoth w = none) :
    processWorkout st w = none := by
  obtain ⟨hid, hne⟩ := keyOf_some w i hk
  simp only [processWorkout, hid, if_neg hne, if_neg hnot, hrun,
    Bool.true_eq_false, if_false]
  simp only [parseBoth] at hpb
  cases hs : parseWhoopLocal w.startSec (w.timezone_offset.getD "+00:00") with
  | none =>
    cases he : parseWhoopLocal w.endSec (w.timezone_offset.getD "+00:00") <;> rfl
  | some sLoc =>
    rw [hs] at hpb
    cases he : parseWhoopLocal w.endSec (w.timezone_offset.getD "+00:00") with
    | none => rfl
    | some eLoc =>
      rw [he] at hpb
      exact Option.noConfusion hpb

theorem processWorkout_aggregate (st : AggState) (w : Workout) (i : String)
    (d0 v0 : Int) (hk : keyOf w = some i) (hnot : i ∉ st.seen)
    (hrun : isRunning w.sport_id = true) (hpb : parseBoth w = some (d0, v0)) :
    processWorkout st w = some ⟨i :: st.seen, bump st.agg d0 v0⟩ := by
  obtain ⟨hid, hne⟩ := keyOf_some w i hk
  simp only [processWorkout, hid, if_neg hne, if_neg hnot, hrun,
    Bool.true_eq_false, if_false]
  simp only [parseBoth] at hpb
  cases hs : parseWhoopLocal w.startSec (w.timezone_offset.getD "+00:00") with
  | none =>
    rw [hs] at hpb
    cases he : parseWhoopLocal w.endSec (w.timezone_offset.getD "+00:00") <;>
      rw [he] at hpb <;>
      exact Option.noConfusion hpb
  | some sLoc =>
    rw [hs] at hpb
    cases he : parseWhoopLocal w.endSec (w.timezone_offset.getD "+00:00") with
    | none =>
      rw [he] at hpb
      exact Option.noConfusion hpb
    | some eLoc =>
      rw [he] at hpb
      have hpb2 : (localDate sLoc, (eLoc - sLoc).tdiv 60) = (d0, v0) :=
        Option.some.inj hpb
      have h1 : localDate sLoc = d0 := congrArg Prod.fst hpb2
      have h2 : (eLoc - sLoc).tdiv 60 = v0 := congrArg Prod.snd hpb2
      show some (⟨i :: st.seen,
          bump st.agg (localDate sLoc) ((eLoc - sLoc).tdiv 60)⟩ : AggState) = _
      rw [h1, h2]

theorem badRec_of_keyOf_none (w : Workout) (h : keyOf w = none) :
    badRec w = false ∧ contribRec w = false := by
  simp [badRec, contribRec, goodRec, h]

theorem badRec_of_nonrunning (w : Workout) (h : isRunning w.sport_id = false) :
    badRec w = false ∧ contribRec w = false := by
  simp [badRec, contribRec, goodRec, h]

theorem contribRec_of_parse (w : Workout) (i : String) (d0 v0 : Int)
    (hk : keyOf w = some i) (hrun : isRunning w.sport_id = true)
    (hpb : parseBoth w = some (d0, v0)) :
    badRec w = false ∧ contribRec w = true ∧ wLocalDate w = d0 ∧ wDurMin w = v0 := by
  refine ⟨?_, ?_, ?_, ?_⟩ <;> simp [badRec, contribRec, goodRec, wLocalDate, wDurMin,
    hk, hrun, hpb]

theorem badRec_of_parse_fail (w : Workout) (i : String)
    (hk : keyOf w = some i) (hrun : isRunning w.sport_id = true)
    (hpb : parseBoth w = none) : badRec w = true := by
  simp [badRec, goodRec, hk, hrun, hpb]

theorem csum_of_isEmpty (l : List Workout) (d : Int)
    (h : (contribList l d).isEmpty = true) : csum l d = 0 := by
  unfold csum
  rw [List.isEmpty_iff.mp h]
  rfl

theorem aggFrom_closed (l : List Workout) :
    ∀ st : AggState,
    (l.filterMap keyOf).Nodup →
    (∀ i ∈ l.filterMap keyOf, i ∉ st.seen) →
    ((aggFrom st l = none ↔ ∃ w ∈ l, badRec w = true)
    ∧ ∀ A, aggFrom st l = some A → ∀ d, dget A.agg d =
        if (contribList l d).isEmpty then dget st.agg d
        else some ((dget st.agg d).getD 0 + csum l d)) := by
  induction l with
  | nil =>
    intro st _ _
    constructor
    · simp [aggFrom]
    · intro A hA d
      simp only [aggFrom, Option.some.injEq] at hA
      simp [contribList, ← hA]
  | cons w ws ih =>
    intro st hnd hfresh
    cases hk : keyOf w with
    | none =>
      have hstep : processWorkout st w = some st := processWorkout_keyNone st w hk
      have hfm : (w :: ws).filterMap keyOf = ws.filterMap keyOf :=
        List.filterMap_cons_none hk
      rw [hfm] at hnd hfresh
      obtain ⟨hbad, hcontrib⟩ := badRec_of_keyOf_none w hk
      obtain ⟨ihiff, ihval⟩ := ih st hnd hfresh
      have hagg : aggFrom st (w :: ws) = aggFrom st ws := by
        simp only [aggFrom, hstep]
      have hcl : ∀ d, contribList (w :: ws) d = contribList ws d := by
        intro d
        unfold contribList
        rw [List.filter_cons_of_neg (by simp [hcontrib])]
      constructor
      · rw [hagg, ihiff]
        simp [hbad]
      · intro A hA d
        rw [hagg] at hA
        rw [ihval A hA d, hcl d]
        unfold csum
        rw [hcl d]
    | some i =>
      have hfm : (w :: ws).filterMap keyOf = i :: ws.filterMap keyOf :=
        List.filterMap_cons_some hk
      rw [hfm] at hnd hfresh
      have hnot : i ∉ st.seen := hfresh i (List.mem_cons_self i _)
      have hndtail : (ws.filterMap keyOf).Nodup := hnd.of_cons
      have hheadnot : i ∉ ws.filterMap keyOf := by
        have := List.nodup_cons.mp hnd
        exact this.1
      have hfreshtail : ∀ j ∈ ws.filterMap keyOf, j ∉ st.seen :=
        fun j hj => hfresh j (List.mem_cons_of_mem i hj)
      cases hrun : isRunning w.sport_id with
      | false =>
        have hstep : processWorkout st w = some st :=
          processWorkout_skip_nonrunning st w i hk hnot hrun
        obtain ⟨hbad, hcontrib⟩ := badRec_of_nonrunning w hrun
        obtain ⟨ihiff, ihval⟩ := ih st hndtail hfreshtail
        have hagg : aggFrom st (w :: ws) = aggFrom st ws := by
          simp only [aggFrom, hstep]
        have hcl : ∀ d, contribList (w :: ws) d = contribList ws d := by
          intro d
          unfold contribList
          rw [List.filter_cons_of_neg (by simp [hcontrib])]
        constructor
        · rw [hagg, ihiff]
          simp [hbad]
        · intro A hA d
          rw [hagg] at hA
          rw [ihval A hA d, hcl d]
          unfold csum
          rw [hcl d]
      | true =>
        cases hpb : parseBoth w with
        | none =>
          have hstep : processWorkout st w = none :=
            processWorkout_fail st w i hk hnot hrun hpb
          have hagg : aggFrom st (w :: ws) = none := by
            simp only [aggFrom, hstep]
          constructor
          · rw [hagg]
            simp only [true_iff]
            exact ⟨w, List.mem_cons_self w ws, badRec_of_parse_fail w i hk hrun hpb⟩
          · intro A hA
            rw [hagg] at hA
            simp at hA
        | some p =>
          obtain ⟨d0, v0⟩ := p
          have hstep : processWorkout st w = some ⟨i :: st.seen, bump st.agg d0 v0⟩ :=
            processWorkout_aggregate st w i d0 v0 hk hnot hrun hpb
          obtain ⟨hbad, hcontrib, hwd, hwv⟩ := contribRec_of_parse w i d0 v0 hk hrun hpb
          have hfresh1 : ∀ j ∈ ws.filterMap keyOf,
              j ∉ (⟨i :: st.seen, bump st.agg d0 v0⟩ : AggState).seen := by
            intro j hj
            simp only [List.mem_cons]
            push_neg
            exact ⟨fun hji => hheadnot (hji ▸ hj), hfreshtail j hj⟩
          obtain ⟨ihiff, ihval⟩ := ih ⟨i :: st.seen, bump st.agg d0 v0⟩ hndtail hfresh1
          have hagg : aggFrom st (w :: ws)
              = aggFrom ⟨i :: st.seen, bump st.agg d0 v0⟩ ws := by
            simp only [aggFrom, hstep]
          constructor
          · rw [hagg, ihiff]
            constructor
            · rintro ⟨w2, hw2, hb2⟩
              exact ⟨w2, List.mem_cons_of_mem w hw2, hb2⟩
            · rintro ⟨w2, hw2, hb2⟩
              rcases List.mem_cons.mp hw2 with heq | hmem
              · subst heq
                rw [hbad] at hb2
                cases hb2
              · exact ⟨w2, hmem, hb2⟩
          · intro A hA d
            rw [hagg] at hA
            have hval := ihval A hA d
            have hbump : dget (bump st.agg d0 v0) d
                = if d0 = d then some ((dget st.agg d0).getD 0 + v0)
                  else dget st.agg d := dget_bump st.agg d0 v0 d
            by_cases hd : d0 = d
            · subst hd
              have hclcons : contribList (w :: ws) d0 = w :: contribList ws d0 := by
                unfold contribList
                rw [List.filter_cons_of_pos (by simp [hcontrib, hwd])]
              have hcsum : csum (w :: ws) d0 = v0 + csum ws d0 := by
                unfold csum
                rw [hclcons]
                simp [hwv]
              rw [hclcons, hcsum]
              by_cases hemp : (contribList ws d0).isEmpty
              · rw [if_pos hemp] at hval
                rw [hval, csum_of_isEmpty ws d0 hemp]
                simp [hbump]
              · rw [if_neg hemp] at hval
                rw [hval]
                simp [hbump, Int.add_assoc]
            · have hclcons : contribList (w :: ws) d = contribList ws d := by
                unfold contribList
                rw [List.filter_cons_of_neg (by simp [hcontrib, hwd, hd])]
              have hcsum : csum (w :: ws) d = csum ws d := by
                unfold csum
                rw [hclcons]
              rw [hclcons, hcsum, hval]
              simp only [hbump, if_neg hd]

/-- C7 counterexample. The claim "processing the same record set in any permutation
yields an identical DailyAggregate" is false of the code: two distinct records
sharing one identifier are order-sensitive, because deduplication keeps whichever
running record with that id is processed first. `[cexW7a, cexW7b]` aggregates to
30 minutes, the reversed order to 60. -/
theorem C7_counterexample_order_dependent :
    ¬ (∀ (l l2 : List Workout), l.Perm l2 → ∀ d : Int,
        (aggregateWorkouts l).map (fun A => dget A d)
          = (aggregateWorkouts l2).map (fun A => dget A d)) := by
  intro h
  have hp : ([cexW7a, cexW7b] : List Workout).Perm [cexW7b, cexW7a] :=
    List.Perm.swap _ _ _
  have h30 : aggregateWorkouts [cexW7a, cexW7b] = some [(0, 30)] := by decide
  have h60 : aggregateWorkouts [cexW7b, cexW7a] = some [(0, 60)] := by decide
  have := h [cexW7a, cexW7b] [cexW7b, cexW7a] hp 0
  rw [h30, h60] at this
  simp [dget] at this

/-- C7 (amended). When the records' truthy identifiers are pairwise distinct — so
deduplication never discriminates between distinct records — processing the record
set in any permutation yields an identical DailyAggregate (the same per-date
lookups, and failure in one order exactly when the other order fails). -/
theorem C7_perm_invariant (l l2 : List Workout) (hperm : l.Perm l2)
    (hnd : (l.filterMap keyOf).Nodup) (d : Int) :
    (aggregateWorkouts l).map (fun A => dget A d)
      = (aggregateWorkouts l2).map (fun A => dget A d) := by
  have hnd2 : (l2.filterMap keyOf).Nodup := ((hperm.filterMap keyOf).nodup_iff).mp hnd
  have hf1 : ∀ i ∈ l.filterMap keyOf, i ∉ (⟨[], []⟩ : AggState).seen := by
    intro i _
    simp
  have hf2 : ∀ i ∈ l2.filterMap keyOf, i ∉ (⟨[], []⟩ : AggState).seen := by
    intro i _
    simp
  obtain ⟨hiff1, hval1⟩ := aggFrom_closed l ⟨[], []⟩ hnd hf1
  obtain ⟨hiff2, hval2⟩ := aggFrom_closed l2 ⟨[], []⟩ hnd2 hf2
  have hbad : (∃ w ∈ l, badRec w = true) ↔ (∃ w ∈ l2, badRec w = true) := by
    constructor <;> rintro ⟨w, hw, hbw⟩
    · exact ⟨w, hperm.mem_iff.mp hw, hbw⟩
    · exact ⟨w, hperm.mem_iff.mpr hw, hbw⟩
  by_cases hb : ∃ w ∈ l, badRec w = true
  · have h1 : aggFrom ⟨[], []⟩ l = none := hiff1.mpr hb
    have h2 : aggFrom ⟨[], []⟩ l2 = none := hiff2.mpr (hbad.mp hb)
    simp [aggregateWorkouts, h1, h2]
  · have h1 : aggFrom ⟨[], []⟩ l ≠ none := fun h => hb (hiff1.mp h)
    have h2 : aggFrom ⟨[], []⟩ l2 ≠ none := fun h => hb (hbad.mpr (hiff2.mp h))
    obtain ⟨A1, hA1⟩ := Option.ne_none_iff_exists'.mp h1
    obtain ⟨A2, hA2⟩ := Option.ne_none_iff_exists'.mp h2
    have hcperm : (contribList l d).Perm (contribList l2 d) := hperm.filter _
    have hempty : (contribList l d).isEmpty = (contribList l2 d).isEmpty := by
      rcases hcl : contribList l d with _ | ⟨c, cs⟩
      · have : contribList l2 d = [] := by
          have hlen := hcperm.length_eq
          rw [hcl] at hlen
          exact List.length_eq_zero.mp hlen.symm
        rw [this]
      · rcases hcl2 : contribList l2 d with _ | ⟨c2, cs2⟩
        · have hlen := hcperm.length_eq
          rw [hcl, hcl2] at hlen
          simp at hlen
        · rfl
    have hsum : csum l d = csum l2 d := by
      unfold csum
      exact List.Perm.sum_eq (hcperm.map wDurMin)
    have hv1 := hval1 A1 hA1 d
    have hv2 := hval2 A2 hA2 d
    rw [aggregateWorkouts, aggregateWorkouts, hA1, hA2]
    show some (dget A1.agg d) = some (dget A2.agg d)
    rw [hv1, hv2, hempty, hsum]

/-- Witness for C7's amended theorem: swapping two distinct-id records leaves the
per-date lookup unchanged. -/
theorem C7_witness_perm :
    (aggregateWorkouts [wPermA, wPermB]).map (fun A => dget A 0)
      = (aggregateWorkouts [wPermB, wPermA]).map (fun A => dget A 0) :=
  C7_perm_invariant [wPermA, wPermB] [wPermB, wPermA] (List.Perm.swap _ _ _)
    (by decide) 0
